import Mathlib

/-!
Verification development for the dni-clock glyph engine: a shallow embedding
of the program's 2D pixel-buffer type (`buf2d.rs`), color model (`colors.rs`)
and glyph cache/compositor (`glyphs.rs`), together with theorems checking the
specification's claims against these definitions.

Modelling conventions:
* machine integers (`usize`, `u8`, `u16`, `u32`) are `Nat`; wrap-around or
  saturation is written explicitly where the code can reach it;
* a Rust panic (failed `assert!`, out-of-bounds index, `expect`, underflowing
  `-` on an unsigned type) is `Option.none`;
* `f32` scalars are modelled by exact rational arithmetic on `ℚ`; the float
  operations used by the program on the values of interest (casts from `u8`,
  multiplication by constants that are powers of two, `round`, `clamp`,
  saturating casts to integers) are exact, and are written below over
  `Rat.num`/`Rat.den` so that they evaluate by kernel reduction.
-/

/-- Subtraction `a - b` on an unsigned machine integer: Rust panics on
underflow in debug builds, so the model returns `none` there. -/
def checked_sub (a b : Nat) : Option Nat :=
  if b ≤ a then some (a - b) else none

/-- The 2D buffer of `buf2d.rs`: flat storage `vec` plus a `width`.
(`Vec2d<T>`). -/
structure Vec2d (α : Type) where
  vec : List α
  width : Nat
deriving DecidableEq

/-- Derived height: `self.vec.len().checked_div(self.width).unwrap_or(0)`;
`Nat` division already returns `0` when `width = 0`. -/
def Vec2d.height (b : Vec2d α) : Nat := b.vec.length / b.width

/-- Flat index of cell `(x, y)` (`Vec2d::index_2d_to_1d`). -/
def Vec2d.index_2d_to_1d (width x y : Nat) : Nat := y * width + x

/-- Read through the `Index` impl: `&self.vec[y*width + x]`; the only bounds
check is the 1D vector bound, so `none` exactly when `y*width + x ≥ len`. -/
def Vec2d.get2d (b : Vec2d α) (x y : Nat) : Option α :=
  b.vec[Vec2d.index_2d_to_1d b.width x y]?

/-- Write through the `IndexMut` impl, with the same 1D bounds check. -/
def Vec2d.set2d (b : Vec2d α) (x y : Nat) (v : α) : Option (Vec2d α) :=
  if Vec2d.index_2d_to_1d b.width x y < b.vec.length then
    some { b with vec := b.vec.set (Vec2d.index_2d_to_1d b.width x y) v }
  else none

/-- `Vec2d::new(value, width, height)`: `vec![value; width * height]`. -/
def Vec2d.new (value : α) (width height : Nat) : Vec2d α :=
  ⟨List.replicate (width * height) value, width⟩

/-- `Vec2d::row(y)`: the slice `vec[y*width .. y*width+width]`.  (The slice
bounds are provable from `y < height` at every use below.) -/
def Vec2d.row (b : Vec2d α) (y : Nat) : List α :=
  (b.vec.drop (y * b.width)).take b.width

/-- Rust slice assignment `v[pos .. pos+s.len()].copy_from_slice(s)` as a
total list operation; it is the real thing whenever `pos + s.length ≤
v.length`, which is provable at every use below. -/
def setSlice (v : List α) (pos : Nat) (s : List α) : List α :=
  v.take pos ++ s ++ v.drop (pos + s.length)

/-- The row loop of `Vec2d::copy_to_from`, copying rows `0..m` of `src` into
`v` with the top-left of `src` at `(sx, sy)`. -/
def copy_rows (v : List α) (width sx sy : Nat) (src : Vec2d α) (m : Nat) : List α :=
  (List.range m).foldl
    (fun acc src_y => setSlice acc ((src_y + sy) * width + sx) (src.row src_y)) v

/-- `Vec2d::copy_to_from(start_x, start_y, src)`: asserts that `src` fits,
then copies row by row.  The failed assert (a panic) is `none`. -/
def Vec2d.copy_to_from (b : Vec2d α) (start_x start_y : Nat) (src : Vec2d α) :
    Option (Vec2d α) :=
  if start_x + src.width ≤ b.width ∧ start_y + src.height ≤ b.height then
    some { b with vec := copy_rows b.vec b.width start_x start_y src src.height }
  else none

/-- One iteration of the inner loop of `Vec2d::copy_to_from_if`: read the
current destination value of cell `(src_x + start_x, src_y + start_y)`, and
overwrite it with the source value when the predicate approves. -/
def copyIfStep (src : Vec2d α) (p : α → Bool) (start_x start_y src_x src_y : Nat)
    (acc : Vec2d α) : Option (Vec2d α) := do
  let current ← acc.get2d (src_x + start_x) (src_y + start_y)
  if p current then do
    let v ← src.get2d src_x src_y
    acc.set2d (src_x + start_x) (src_y + start_y) v
  else some acc

/-- `Vec2d::copy_to_from_if(start_x, start_y, src, should_overwrite)`: the
same fit assert, then a cell-by-cell loop over `src_x` (outer) and `src_y`
(inner). -/
def Vec2d.copy_to_from_if (b : Vec2d α) (start_x start_y : Nat) (src : Vec2d α)
    (p : α → Bool) : Option (Vec2d α) :=
  if start_x + src.width ≤ b.width ∧ start_y + src.height ≤ b.height then
    (List.range src.width).foldlM (fun acc src_x =>
      (List.range src.height).foldlM (fun acc src_y =>
        copyIfStep src p start_x start_y src_x src_y acc) acc) b
  else none

/-! Color model (`colors.rs`).  `Color = u32`; a value is kept below `2 ^ 32`
by construction of `from_u8_rgb`. -/

abbrev Color := Nat

/-- `from_u8_rgb(r, g, b) = (r << 16) | (g << 8) | b`; the `% 256` masks model
the `u8` argument type. -/
def from_u8_rgb (r g b : Nat) : Color :=
  ((r % 256) <<< 16) ||| ((g % 256) <<< 8) ||| (b % 256)

/-- `to_u8_rgb`: bytes 1..3 of the big-endian representation of the `u32`. -/
def to_u8_rgb (color : Color) : Nat × Nat × Nat :=
  (color / 2 ^ 16 % 256, color / 2 ^ 8 % 256, color % 256)

def BLACK : Color := 0

def WHITE : Color := from_u8_rgb 255 255 255

def BG : Color := BLACK

def FG : Color := WHITE

/-- Round `n / d` (for `d > 0`) to the nearest integer, halves away from
zero: the behaviour of `f32::round`.  Written with `Int.fdiv` so that it
evaluates by kernel reduction. -/
def round_ratio (n : ℤ) (d : Nat) : ℤ :=
  if n < 0 then -((-n * 2 + d).fdiv (d * 2)) else (n * 2 + d).fdiv (d * 2)

/-- Saturating cast of an integral float to `u8` (`as u8`). -/
def u8_sat (z : ℤ) : Nat := min z.toNat 255

/-- `darken(color, opacity)` of `colors.rs`.  Note the source clamps the
fraction with `opacity.clamp(0.0, u8::MAX.into())`, i.e. to `[0.0, 255.0]`
(not to `[0.0, 1.0]`): `u8::MAX.into()` is the float `255.0`.  Each channel
is then `(f32::from(ch) * opacity).round() as u8`.  The comparisons and the
per-channel product `ch * opacity = (ch * num) / den` are written over
`num`/`den`. -/
def darken (color : Color) (opacity : ℚ) : Color :=
  let opacity : ℚ := if opacity.num < 0 then 0
    else if 255 * (opacity.den : ℤ) < opacity.num then 255 else opacity
  let rgb := to_u8_rgb color
  from_u8_rgb
    (u8_sat (round_ratio ((rgb.1 : ℤ) * opacity.num) opacity.den))
    (u8_sat (round_ratio ((rgb.2.1 : ℤ) * opacity.num) opacity.den))
    (u8_sat (round_ratio ((rgb.2.2 : ℤ) * opacity.num) opacity.den))

/-- Wrapping subtraction on `u16`: release-build behaviour of `a - b`.  (The
theorems below prove the wrap can never fire in `pixel_is_transparent`.) -/
def u16_wrapping_sub (a b : Nat) : Nat := ((((a : ℤ) - (b : ℤ)) % (2 ^ 16 : ℤ))).toNat

/-- The `sum_rgb` helper nested in `colors::pixel_is_transparent`. -/
def sum_rgb (color : Color) : Nat :=
  (to_u8_rgb color).1 + (to_u8_rgb color).2.1 + (to_u8_rgb color).2.2

/-- `const FG_RGB_SUM: u16 = sum_rgb(FG)` of `colors.rs`. -/
def FG_RGB_SUM : Nat := sum_rgb FG

/-- `const OVERWRITE_THRESHOLD: u16 = 100 * 3` of `colors.rs`. -/
def OVERWRITE_THRESHOLD : Nat := 100 * 3

/-- `colors::pixel_is_transparent(px)`:
`FG_RGB_SUM - sum_rgb(px) > OVERWRITE_THRESHOLD` on `u16`.  (The compile-time
`assert!(BG == 0)` of the source holds by `rfl`.) -/
def pixel_is_transparent (px : Nat) : Bool :=
  decide (OVERWRITE_THRESHOLD < u16_wrapping_sub FG_RGB_SUM (sum_rgb px))

/-! Glyph rendering and compositing (`glyphs.rs`). -/

abbrev GlyphBuffer := Vec2d Color

/-- The compositor state (`TextBuffer`): destination buffer, cursor and fixed
line height. -/
structure TextBuffer where
  buf : GlyphBuffer
  x : Nat
  y : Nat
  height : Nat
deriving DecidableEq

/-- The `sum_rgb` helper nested in `TextBuffer::pixel_is_somewhat_transparent`
(the source duplicates it). -/
def TextBuffer.sum_rgb (color : Color) : Nat :=
  (to_u8_rgb color).1 + (to_u8_rgb color).2.1 + (to_u8_rgb color).2.2

/-- `const FG_RGB_SUM: u16 = sum_rgb(FG)` of `glyphs.rs`. -/
def TextBuffer.FG_RGB_SUM : Nat := TextBuffer.sum_rgb FG

/-- `const THRESHOLD: u16 = 100` of `glyphs.rs`. -/
def TextBuffer.THRESHOLD : Nat := 100

/-- `TextBuffer::pixel_is_somewhat_transparent(px)`:
`FG_RGB_SUM - sum_rgb(px) > THRESHOLD * 3` on `u16`. -/
def TextBuffer.pixel_is_somewhat_transparent (px : Color) : Bool :=
  decide (TextBuffer.THRESHOLD * 3 < u16_wrapping_sub TextBuffer.FG_RGB_SUM (TextBuffer.sum_rgb px))

/-- Shared body of `TextBuffer::_write_glyph::<COMPOSE>`: the
`checked_sub(...).expect("glyph was taller than the line")` panic is `none`;
otherwise the glyph is blitted at `(self.x, centered_y)` and the cursor
advances by the glyph width. -/
def TextBuffer.write_glyph_c (compose : Bool) (tb : TextBuffer) (glyph : GlyphBuffer) :
    Option TextBuffer := do
  let height_diff ← checked_sub tb.height glyph.height
  let centered_y := tb.y + height_diff / 2
  let buf ←
    if compose then
      tb.buf.copy_to_from_if tb.x centered_y glyph TextBuffer.pixel_is_somewhat_transparent
    else
      tb.buf.copy_to_from tb.x centered_y glyph
  some { buf := buf, x := tb.x + glyph.width, y := tb.y, height := tb.height }

/-- `TextBuffer::write_glyph`. -/
def TextBuffer.write_glyph (tb : TextBuffer) (glyph : GlyphBuffer) : Option TextBuffer :=
  tb.write_glyph_c false glyph

/-- `TextBuffer::write_glyph_composing`. -/
def TextBuffer.write_glyph_composing (tb : TextBuffer) (glyph : GlyphBuffer) : Option TextBuffer :=
  tb.write_glyph_c true glyph

/-- The blit performed by `_write_glyph` once `centered_y` is known: plain
overwrite or transparency-gated overwrite. -/
def blit (compose : Bool) (dst : GlyphBuffer) (x y : Nat) (glyph : GlyphBuffer) :
    Option GlyphBuffer :=
  if compose then dst.copy_to_from_if x y glyph TextBuffer.pixel_is_somewhat_transparent
  else dst.copy_to_from x y glyph

/-- The 26-byte lookup table `DIGITS` of `n_to_dni`, byte for byte:
the characters `0123456789`, then `)!@#$%^&*(`, then the five bracket
characters and the pipe. -/
def DIGITS : List Nat :=
  [48, 49, 50, 51, 52, 53, 54, 55, 56, 57,
   41, 33, 64, 35, 36, 37, 94, 38, 42, 40,
   91, 93, 92, 123, 125, 124]

/-- `n_to_dni(n)`: `DIGITS[n]`, a panic (`none`) when `n` is out of range. -/
def n_to_dni (n : Nat) : Option Nat := DIGITS[n]?

/-- `digit_overlap(scale) = (scale * 0.25).round() as usize`.  For
`scale = num / den` this is `round(num / (4 * den))`, halves away from zero,
with the negative case saturated to `0` by `as usize`; written over
`num`/`den` (see the module comment). -/
def digit_overlap (scale : ℚ) : Nat :=
  (if scale.num < 0 then -((-scale.num * 2 + scale.den * 4).fdiv (scale.den * 8))
   else (scale.num * 2 + scale.den * 4).fdiv (scale.den * 8)).toNat

/-- A font capability: for a character (byte code) and a scale it yields the
rasterized glyph.  The rasterizer (`render_scaled_glyph`) and the font files
are external collaborators, so the cache is parametrized by this function. -/
abbrev RenderFn := Nat → ℚ → GlyphBuffer

/-- The glyph cache (`Cache` of `glyphs.rs`). -/
structure Cache where
  scale : ℚ
  dni_digits : Fin 25 → GlyphBuffer
  dni_numerals : Fin 60 → Option GlyphBuffer
  colon : GlyphBuffer

/-- `Cache::generate(scale, dni_font, ascii_font)`: eagerly renders the 25
single digits (digit `n` from character `n_to_dni(n)`, which cannot panic for
`n < 25`) and the colon (byte 58), and leaves the two-digit table empty. -/
def Cache.generate (scale : ℚ) (dni_font ascii_font : RenderFn) : Cache where
  scale := scale
  dni_digits := fun n => dni_font ((n_to_dni n.val).getD 0) scale
  dni_numerals := fun _ => none
  colon := ascii_font 58 scale

/-- The body of `Cache::compose_numeral` once the two digit glyphs are
selected.  The `debug_assert_eq!(height, digit2_buf.height())` of the source
is kept as a guard, and the two unchecked `usize` subtractions (`... -
overlap` on the width and `n_buf.x -= overlap`) are `checked_sub`. -/
def compose_from_bufs (scale : ℚ) (digit1_buf digit2_buf : GlyphBuffer) :
    Option GlyphBuffer := do
  let overlap := digit_overlap scale
  let width ← checked_sub (digit1_buf.width + digit2_buf.width) overlap
  let height := digit1_buf.height
  if height = digit2_buf.height then
    let n_buf : TextBuffer := ⟨Vec2d.new BG width height, 0, 0, height⟩
    let n_buf ← n_buf.write_glyph_composing digit2_buf
    let x ← checked_sub n_buf.x overlap
    let n_buf ← TextBuffer.write_glyph_composing { n_buf with x := x } digit1_buf
    some n_buf.buf
  else none

/-- `Cache::compose_numeral(scale, dni_digits, n)`: split `n` into
`digit1 = n % 25` and `digit2 = (n - digit1) / 25` and compose the two
cached glyphs.  The two `debug_assert!`s of the source
(`digit2 * 25 + digit1 == n`, `digit2 < 25`) hold for every `u8` input;
the bound `digit2 < 25` also guards the array index, so it is kept as a
guard. -/
def Cache.compose_numeral (scale : ℚ) (dni_digits : Fin 25 → GlyphBuffer) (n : Nat) :
    Option GlyphBuffer :=
  let digit1 := n % 25
  let digit2 := (n - digit1) / 25
  if h2 : digit2 < 25 then
    compose_from_bufs scale (dni_digits ⟨digit1, Nat.mod_lt n (by decide)⟩)
      (dni_digits ⟨digit2, h2⟩)
  else none

/-- The cache owner (`Glyphs`). -/
structure Glyphs where
  cache : Cache

/-- `Glyphs::with_starting_scale(scale)`, with the two fonts passed as
capabilities. -/
def Glyphs.with_starting_scale (scale : ℚ) (dni_font ascii_font : RenderFn) : Glyphs :=
  ⟨Cache.generate scale dni_font ascii_font⟩

/-- `Glyphs::get_dni_number_one_digit(n)`: `&cache.dni_digits[n]`, a panic
(`none`) when `n ≥ 25`. -/
def Glyphs.get_dni_number_one_digit (g : Glyphs) (n : Nat) : Option GlyphBuffer :=
  if h : n < 25 then some (g.cache.dni_digits ⟨n, h⟩) else none

/-- `Glyphs::get_colon()`. -/
def Glyphs.get_colon (g : Glyphs) : GlyphBuffer := g.cache.colon

/-! Generic invariant lemmas for the loops (`foldl`/`foldlM` over
`List.range`). -/

/-- Invariant rule for a `for` loop: if `Q j` is preserved by iteration `j`
for every `j < n`, then `Q n` holds of the final state. -/
theorem range_foldl_inv {β : Type _} (f : β → Nat → β) (Q : Nat → β → Prop) :
    ∀ n, (∀ j b, j < n → Q j b → Q (j + 1) (f b j)) →
      ∀ init, Q 0 init → Q n ((List.range n).foldl f init) := by
  intro n
  induction n with
  | zero => intro _ init h; simpa using h
  | succ m ih =>
    intro hstep init hinit
    rw [List.range_succ, List.foldl_append]
    have hm := ih (fun j b hj hq => hstep j b (Nat.lt_succ_of_lt hj) hq) init hinit
    simpa using hstep m _ (Nat.lt_succ_self m) hm

/-- Invariant rule for a fallible `for` loop over `Option`: if every
iteration `j < n` succeeds and preserves the indexed invariant, the whole
loop succeeds. -/
theorem range_foldlM_inv {β : Type _} (f : β → Nat → Option β) (Q : Nat → β → Prop) :
    ∀ n, (∀ j b, j < n → Q j b → ∃ b2, f b j = some b2 ∧ Q (j + 1) b2) →
      ∀ init, Q 0 init → ∃ r, (List.range n).foldlM f init = some r ∧ Q n r := by
  intro n
  induction n with
  | zero => intro _ init h; exact ⟨init, rfl, by simpa using h⟩
  | succ m ih =>
    intro hstep init hinit
    obtain ⟨r, hr, hq⟩ := ih (fun j b hj hq => hstep j b (Nat.lt_succ_of_lt hj) hq) init hinit
    obtain ⟨r2, hr2, hq2⟩ := hstep m r (Nat.lt_succ_self m) hq
    refine ⟨r2, ?_, hq2⟩
    rw [List.range_succ, List.foldlM_append, hr]
    simp [hr2]

/-! Arithmetic facts about the flat index `y * width + x`. -/

/-- A cell with `x < width` and `y < height = L / width` has its flat index
inside the vector. -/
theorem flat_lt {x W y L : Nat} (hx : x < W) (hy : y < L / W) : y * W + x < L := by
  have h1 : (y + 1) * W ≤ (L / W) * W := Nat.mul_le_mul_right W hy
  have h2 : (L / W) * W ≤ L := Nat.div_mul_le_self L W
  have h3 : y * W + x < (y + 1) * W := by
    calc y * W + x < y * W + W := Nat.add_lt_add_left hx _
      _ = (y + 1) * W := by ring
  omega

/-- Decoding the column of a flat index. -/
theorem decode_mod {W a b : Nat} (hb : b < W) : (a * W + b) % W = b := by
  rw [Nat.mul_comm, Nat.mul_add_mod]
  exact Nat.mod_eq_of_lt hb

/-- Decoding the row of a flat index. -/
theorem decode_div {W a b : Nat} (hb : b < W) : (a * W + b) / W = a := by
  have hW : 0 < W := by omega
  rw [Nat.mul_comm, Nat.mul_add_div hW, Nat.div_eq_of_lt hb, Nat.add_zero]

/-! Facts about `Vec2d.row` and `setSlice`. -/

theorem row_getElem? (b : Vec2d α) (y t : Nat) (ht : t < b.width) :
    (b.row y)[t]? = b.vec[y * b.width + t]? := by
  unfold Vec2d.row
  rw [List.getElem?_take_of_lt ht, List.getElem?_drop]

theorem row_length (b : Vec2d α) (y : Nat) (hy : y < b.height) :
    (b.row y).length = b.width := by
  unfold Vec2d.height at hy
  unfold Vec2d.row
  rw [List.length_take, List.length_drop]
  have h1 : (y + 1) * b.width ≤ (b.vec.length / b.width) * b.width :=
    Nat.mul_le_mul_right _ hy
  have h2 : (b.vec.length / b.width) * b.width ≤ b.vec.length :=
    Nat.div_mul_le_self _ _
  have h3 : y * b.width + b.width = (y + 1) * b.width := by ring
  omega

theorem setSlice_length (v s : List α) (pos : Nat) (h : pos + s.length ≤ v.length) :
    (setSlice v pos s).length = v.length := by
  unfold setSlice
  rw [List.length_append, List.length_append, List.length_take, List.length_drop]
  omega

theorem setSlice_getElem?_lt (v s : List α) (pos i : Nat)
    (h : pos + s.length ≤ v.length) (hi : i < pos) :
    (setSlice v pos s)[i]? = v[i]? := by
  unfold setSlice
  rw [List.getElem?_append_left, List.getElem?_append_left, List.getElem?_take_of_lt hi]
  · rw [List.length_take]; omega
  · rw [List.length_append, List.length_take]; omega

theorem setSlice_getElem?_mid (v s : List α) (pos i : Nat)
    (h : pos + s.length ≤ v.length) (h1 : pos ≤ i) (h2 : i < pos + s.length) :
    (setSlice v pos s)[i]? = s[i - pos]? := by
  unfold setSlice
  have hti : (v.take pos).length = pos := by rw [List.length_take]; omega
  rw [List.getElem?_append_left, List.getElem?_append_right, hti]
  · rw [hti]; omega
  · rw [List.length_append, hti]; omega

theorem setSlice_getElem?_ge (v s : List α) (pos i : Nat)
    (h : pos + s.length ≤ v.length) (h2 : pos + s.length ≤ i) :
    (setSlice v pos s)[i]? = v[i]? := by
  unfold setSlice
  have hti : (v.take pos).length = pos := by rw [List.length_take]; omega
  rw [List.getElem?_append_right, List.getElem?_drop, List.length_append, hti]
  · congr 1; omega
  · rw [List.length_append, hti]; omega

/-! A pointwise description of partially completed blits.  `blitGet self src
sx sy done i` is the value at flat index `i` of the destination after the
cells `(x, y)` of `src` with `done x y` have been copied (without a
predicate) onto `self` at offset `(sx, sy)`. -/

def blitGet (self src : Vec2d α) (sx sy : Nat) (done : Nat → Nat → Bool) (i : Nat) : Option α :=
  if 0 < self.width ∧ sx ≤ i % self.width ∧ sy ≤ i / self.width
      ∧ done (i % self.width - sx) (i / self.width - sy) = true then
    src.vec[(i / self.width - sy) * src.width + (i % self.width - sx)]?
  else self.vec[i]?

theorem blitGet_congr (self src : Vec2d α) (sx sy : Nat) (f g : Nat → Nat → Bool) (i : Nat)
    (h : ∀ x y, f x y = g x y) : blitGet self src sx sy f i = blitGet self src sx sy g i := by
  unfold blitGet
  rw [h]

theorem blitGet_none (self src : Vec2d α) (sx sy : Nat) (done : Nat → Nat → Bool) (i : Nat)
    (h : ∀ x y, done x y = false) : blitGet self src sx sy done i = self.vec[i]? := by
  unfold blitGet
  rw [h]
  simp

/-- `blitGet` at the flat index of the footprint cell `(x, y)`. -/
theorem blitGet_at (self src : Vec2d α) (sx sy : Nat) (done : Nat → Nat → Bool) (x y : Nat)
    (hW : x + sx < self.width) :
    blitGet self src sx sy done ((y + sy) * self.width + (x + sx)) =
      if done x y then src.vec[y * src.width + x]?
      else self.vec[(y + sy) * self.width + (x + sx)]? := by
  have h0 : 0 < self.width := by omega
  unfold blitGet
  rw [decode_mod hW, decode_div hW]
  have e1 : x + sx - sx = x := by omega
  have e2 : y + sy - sy = y := by omega
  rw [e1, e2]
  simp only [h0, true_and, Nat.le_add_left, if_true]

/-- Two `done` predicates describe the same partial blit at `i` when one
implies the other and they can differ only at cells whose flat index is not
`i`. -/
theorem blitGet_eq_of (self src : Vec2d α) (sx sy i : Nat) (f g : Nat → Nat → Bool)
    (hmono : ∀ x y, f x y = true → g x y = true)
    (hdiff : ∀ x y, x + sx < self.width → i = (y + sy) * self.width + (x + sx) →
      g x y = true → f x y = true) :
    blitGet self src sx sy f i = blitGet self src sx sy g i := by
  unfold blitGet
  by_cases hg : 0 < self.width ∧ sx ≤ i % self.width ∧ sy ≤ i / self.width
      ∧ g (i % self.width - sx) (i / self.width - sy) = true
  · obtain ⟨h0, h1, h2, h3⟩ := hg
    have hxW : (i % self.width - sx) + sx < self.width := by
      have := Nat.mod_lt i h0
      omega
    have hi : i = (i / self.width - sy + sy) * self.width + (i % self.width - sx + sx) := by
      have hdm := Nat.div_add_mod i self.width
      have h4 : i / self.width - sy + sy = i / self.width := by omega
      have h5 : i % self.width - sx + sx = i % self.width := by omega
      have hcomm : i / self.width * self.width = self.width * (i / self.width) :=
        Nat.mul_comm _ _
      rw [h4, h5]
      omega
    have hf3 := hdiff _ _ hxW hi h3
    rw [if_pos ⟨h0, h1, h2, hf3⟩, if_pos ⟨h0, h1, h2, h3⟩]
  · rw [if_neg hg, if_neg ?_]
    intro ⟨h0, h1, h2, h3⟩
    exact hg ⟨h0, h1, h2, hmono _ _ h3⟩

/-- Pointwise description of the row loop of `copy_to_from`: after copying
rows `0..m`, the destination list reads as the partial blit of those rows. -/
theorem copy_rows_spec (self src : Vec2d α) (sx sy m : Nat)
    (Hx : sx + src.width ≤ self.width) (Hy : sy + m ≤ self.height) (Hm : m ≤ src.height) :
    (copy_rows self.vec self.width sx sy src m).length = self.vec.length ∧
    ∀ i, (copy_rows self.vec self.width sx sy src m)[i]? =
      blitGet self src sx sy (fun x y => decide (x < src.width ∧ y < m)) i := by
  unfold Vec2d.height at Hy
  unfold copy_rows
  refine range_foldl_inv _
    (fun j v => v.length = self.vec.length ∧
      ∀ i, v[i]? = blitGet self src sx sy (fun x y => decide (x < src.width ∧ y < j)) i)
    m ?_ self.vec ⟨rfl, fun i => (blitGet_none self src sx sy _ i (by simp)).symm⟩
  intro j b hj hQ
  obtain ⟨hlen, hpt⟩ := hQ
  have hjh : j < src.height := lt_of_lt_of_le hj Hm
  have hrow : (src.row j).length = src.width := row_length src j hjh
  have hpos : (j + sy) * self.width + sx + src.width ≤ self.vec.length := by
    have h1 : (j + sy + 1) * self.width ≤ (self.vec.length / self.width) * self.width :=
      Nat.mul_le_mul_right _ (by omega)
    have h2 : (self.vec.length / self.width) * self.width ≤ self.vec.length :=
      Nat.div_mul_le_self _ _
    have h3 : (j + sy) * self.width + self.width = (j + sy + 1) * self.width := by ring
    omega
  have hbound : (j + sy) * self.width + sx + (src.row j).length ≤ b.length := by
    rw [hrow, hlen]; exact hpos
  refine ⟨by rw [setSlice_length _ _ _ hbound, hlen], fun i => ?_⟩
  by_cases h1 : i < (j + sy) * self.width + sx
  · rw [setSlice_getElem?_lt _ _ _ _ hbound h1, hpt i]
    refine blitGet_eq_of self src sx sy i _ _ (fun x y hf => by
      simp only [decide_eq_true_eq] at hf ⊢; omega) ?_
    intro x y hxW hi hg
    simp only [decide_eq_true_eq] at hg ⊢
    refine ⟨hg.1, ?_⟩
    by_contra hy
    have hyj : y = j := by omega
    subst hyj
    omega
  · by_cases h2 : i < (j + sy) * self.width + sx + src.width
    · have hmid : i < (j + sy) * self.width + sx + (src.row j).length := by rw [hrow]; exact h2
      rw [setSlice_getElem?_mid _ _ _ _ hbound (by omega) hmid]
      have ht : i - ((j + sy) * self.width + sx) < src.width := by omega
      rw [row_getElem? src j _ ht]
      have hWt : i - ((j + sy) * self.width + sx) + sx < self.width := by omega
      have hieq : i = (j + sy) * self.width + (i - ((j + sy) * self.width + sx) + sx) := by
        omega
      conv_rhs => rw [hieq]
      rw [blitGet_at self src sx sy _ _ j hWt]
      rw [if_pos (by simp only [decide_eq_true_eq]; omega)]
    · have hge : (j + sy) * self.width + sx + (src.row j).length ≤ i := by rw [hrow]; omega
      rw [setSlice_getElem?_ge _ _ _ _ hbound hge, hpt i]
      refine blitGet_eq_of self src sx sy i _ _ (fun x y hf => by
        simp only [decide_eq_true_eq] at hf ⊢; omega) ?_
      intro x y hxW hi hg
      simp only [decide_eq_true_eq] at hg ⊢
      refine ⟨hg.1, ?_⟩
      by_contra hy
      have hyj : y = j := by omega
      subst hyj
      omega

/-- `copy_to_from` under its fit assert. -/
theorem copy_to_from_eq_some (b src : Vec2d α) (sx sy : Nat)
    (h : sx + src.width ≤ b.width ∧ sy + src.height ≤ b.height) :
    b.copy_to_from sx sy src =
      some ⟨copy_rows b.vec b.width sx sy src src.height, b.width⟩ := by
  unfold Vec2d.copy_to_from
  rw [if_pos h]

/-- One in-bounds iteration of the `copy_to_from_if` loop: the read succeeds,
and the step either leaves the state unchanged (predicate refuses) or writes
the source value of cell `(c, r)`. -/
theorem copyIfStep_in (b src : Vec2d α) (p : α → Bool) (sx sy c r : Nat) (acc : Vec2d α)
    (hW : acc.width = b.width) (hL : acc.vec.length = b.vec.length)
    (Hx : sx + src.width ≤ b.width) (Hy : sy + src.height ≤ b.height)
    (hc : c < src.width) (hr : r < src.height) :
    ∃ cur, acc.vec[(r + sy) * b.width + (c + sx)]? = some cur ∧
      (p cur = false → copyIfStep src p sx sy c r acc = some acc) ∧
      (p cur = true → ∃ v, src.vec[r * src.width + c]? = some v ∧
        copyIfStep src p sx sy c r acc =
          some { acc with vec := acc.vec.set ((r + sy) * b.width + (c + sx)) v }) := by
  have hq : (r + sy) * b.width + (c + sx) < b.vec.length := by
    have hh := Hy
    have hrr := hr
    unfold Vec2d.height at hh hrr
    exact flat_lt (by omega) (by omega)
  have hq2 : (r + sy) * acc.width + (c + sx) < acc.vec.length := by
    rw [hW, hL]; exact hq
  have hqa : (r + sy) * b.width + (c + sx) < acc.vec.length := by omega
  have hget : acc.get2d (c + sx) (r + sy) = acc.vec[(r + sy) * b.width + (c + sx)]? := by
    unfold Vec2d.get2d Vec2d.index_2d_to_1d
    rw [hW]
  have hcur0 : acc.vec[(r + sy) * b.width + (c + sx)]?.isSome = true := by
    rw [List.getElem?_eq_getElem hqa]
    rfl
  obtain ⟨cur, hcur⟩ := Option.isSome_iff_exists.mp hcur0
  have hsl : r * src.width + c < src.vec.length := by
    have hrr := hr
    unfold Vec2d.height at hrr
    exact flat_lt hc hrr
  have hsv0 : src.vec[r * src.width + c]?.isSome = true := by
    rw [List.getElem?_eq_getElem hsl]
    rfl
  obtain ⟨v, hv⟩ := Option.isSome_iff_exists.mp hsv0
  refine ⟨cur, hcur, ?_, ?_⟩
  · intro hp
    simp [copyIfStep, hget, hcur, hp]
  · intro hp
    refine ⟨v, hv, ?_⟩
    simp [copyIfStep, hget, hcur, hp, Vec2d.get2d, Vec2d.index_2d_to_1d, hv,
      Vec2d.set2d, hq2, hW, hqa]
  

/-- `copy_to_from_if` succeeds under the fit assert, preserving width and
storage size, for an arbitrary predicate. -/
theorem copy_to_from_if_some (b src : Vec2d α) (sx sy : Nat) (p : α → Bool)
    (h : sx + src.width ≤ b.width ∧ sy + src.height ≤ b.height) :
    ∃ r, b.copy_to_from_if sx sy src p = some r ∧
      r.width = b.width ∧ r.vec.length = b.vec.length := by
  unfold Vec2d.copy_to_from_if
  rw [if_pos h]
  refine range_foldlM_inv _
    (fun _ acc => acc.width = b.width ∧ acc.vec.length = b.vec.length)
    src.width ?_ b ⟨rfl, rfl⟩
  intro c acc hc hQ
  refine range_foldlM_inv _
    (fun _ acc => acc.width = b.width ∧ acc.vec.length = b.vec.length)
    src.height ?_ acc hQ
  intro r acc2 hrr hQ2
  obtain ⟨cur, hcur, hskip, hwrite⟩ :=
    copyIfStep_in b src p sx sy c r acc2 hQ2.1 hQ2.2 h.1 h.2 hc hrr
  cases hp : p cur with
  | false => exact ⟨acc2, hskip hp, hQ2⟩
  | true =>
    obtain ⟨v, hv, heq⟩ := hwrite hp
    exact ⟨_, heq, hQ2.1, by simpa [List.length_set] using hQ2.2⟩

/-- `copy_to_from_if` with an always-false predicate changes nothing. -/
theorem copy_to_from_if_false (b src : Vec2d α) (sx sy : Nat)
    (h : sx + src.width ≤ b.width ∧ sy + src.height ≤ b.height) :
    b.copy_to_from_if sx sy src (fun _ => false) = some b := by
  unfold Vec2d.copy_to_from_if
  rw [if_pos h]
  have hstep : ∀ c acc, c < src.width → acc = b →
      ∃ b2, (List.range src.height).foldlM
          (fun acc2 src_y => copyIfStep src (fun _ => false) sx sy c src_y acc2) acc = some b2
        ∧ b2 = b := by
    intro c acc hc hQ
    rw [hQ]
    refine range_foldlM_inv _ (fun _ acc2 => acc2 = b) src.height ?_ b rfl
    intro r acc2 hrr hQ2
    obtain ⟨cur, hcur, hskip, hwrite⟩ :=
      copyIfStep_in b src (fun _ => false) sx sy c r acc2 (by rw [hQ2]) (by rw [hQ2])
        h.1 h.2 hc hrr
    exact ⟨acc2, hskip rfl, hQ2⟩
  obtain ⟨r, hr, hq⟩ := range_foldlM_inv _ (fun _ acc => acc = b) src.width
    (fun c acc hc hQ => hstep c acc hc hQ) b rfl
  rw [hr, hq]

/-- `copy_to_from_if` with an always-true predicate is exactly
`copy_to_from`: the cell loop (column-major) overwrites the same footprint as
the row loop. -/
theorem copy_to_from_if_true (b src : Vec2d α) (sx sy : Nat)
    (h : sx + src.width ≤ b.width ∧ sy + src.height ≤ b.height) :
    b.copy_to_from_if sx sy src (fun _ => true) = b.copy_to_from sx sy src := by
  rw [copy_to_from_eq_some b src sx sy h]
  unfold Vec2d.copy_to_from_if
  rw [if_pos h]
  have hrows := copy_rows_spec b src sx sy src.height h.1 h.2 le_rfl
  have hstep : ∀ c acc, c < src.width →
      (acc.width = b.width ∧ acc.vec.length = b.vec.length ∧
        ∀ i, acc.vec[i]? =
          blitGet b src sx sy (fun x y => decide (x < c ∧ y < src.height)) i) →
      ∃ b2, (List.range src.height).foldlM
          (fun acc2 src_y => copyIfStep src (fun _ => true) sx sy c src_y acc2) acc = some b2
        ∧ b2.width = b.width ∧ b2.vec.length = b.vec.length ∧
          ∀ i, b2.vec[i]? =
            blitGet b src sx sy (fun x y => decide (x < c + 1 ∧ y < src.height)) i := by
    intro c acc hc hQ
    obtain ⟨hWa, hLa, hpta⟩ := hQ
    have hinner := range_foldlM_inv
      (fun acc2 src_y => copyIfStep src (fun _ => true) sx sy c src_y acc2)
      (fun r2 acc2 => acc2.width = b.width ∧ acc2.vec.length = b.vec.length ∧
        ∀ i, acc2.vec[i]? =
          blitGet b src sx sy
            (fun x y => decide (x < c ∧ y < src.height) || decide (x = c ∧ y < r2)) i)
      src.height ?_ acc
      ⟨hWa, hLa, fun i => by
        rw [hpta i]
        exact blitGet_congr b src sx sy _ _ i (fun x y => by simp)⟩
    · obtain ⟨r2, hr2, hW2, hL2, hpt2⟩ := hinner
      refine ⟨r2, hr2, hW2, hL2, fun i => ?_⟩
      rw [hpt2 i]
      refine blitGet_congr b src sx sy _ _ i (fun x y => ?_)
      rw [Bool.eq_iff_iff]
      simp only [Bool.or_eq_true, decide_eq_true_eq]
      omega
    intro r2 acc2 hr2 hQ2
    obtain ⟨hW2, hL2, hpt2⟩ := hQ2
    obtain ⟨cur, hcur, _, hwrite⟩ :=
      copyIfStep_in b src (fun _ => true) sx sy c r2 acc2 hW2 hL2 h.1 h.2 hc hr2
    obtain ⟨v, hv, heq⟩ := hwrite rfl
    refine ⟨_, heq, hW2, by simpa [List.length_set] using hL2, fun i => ?_⟩
    by_cases hi : i = (r2 + sy) * b.width + (c + sx)
    · subst hi
      rw [List.getElem?_set_self']
      rw [hcur]
      have hxW : c + sx < b.width := by omega
      rw [blitGet_at b src sx sy _ c r2 hxW]
      rw [if_pos (by simp)]
      simp [hv]
    · rw [List.getElem?_set_ne (fun hh => hi hh.symm)]
      rw [hpt2 i]
      refine blitGet_eq_of b src sx sy i _ _ (fun x y hf => by
        simp only [Bool.or_eq_true, decide_eq_true_eq] at hf ⊢; omega) ?_
      intro x y hxW hieq hg
      simp only [Bool.or_eq_true, decide_eq_true_eq] at hg ⊢
      rcases hg with hg | hg
      · exact Or.inl hg
      · rcases Nat.lt_or_ge y r2 with hy | hy
        · exact Or.inr ⟨hg.1, hy⟩
        · exfalso
          apply hi
          have hyy : y = r2 := by omega
          rw [hieq, hg.1, hyy]
  obtain ⟨r, hr, hW, hL, hpt⟩ := range_foldlM_inv _
    (fun c acc => acc.width = b.width ∧ acc.vec.length = b.vec.length ∧
      ∀ i, acc.vec[i]? =
        blitGet b src sx sy (fun x y => decide (x < c ∧ y < src.height)) i)
    src.width (fun c acc hc hQ => hstep c acc hc hQ) b
    ⟨rfl, rfl, fun i => (blitGet_none b src sx sy _ i (by simp)).symm⟩
  rw [hr]
  have hvec : r.vec = copy_rows b.vec b.width sx sy src src.height :=
    List.ext_getElem? fun i => by rw [hpt i, hrows.2 i]
  rw [← hvec, ← hW]

/-! Helper lemmas for the compositor and the color model. -/

theorem getElem?_isSome_iff (l : List α) (i : Nat) : l[i]?.isSome = true ↔ i < l.length := by
  constructor
  · intro hs
    by_contra hlt
    rw [List.getElem?_eq_none (by omega)] at hs
    simp at hs
  · intro hlt
    rw [List.getElem?_eq_getElem hlt]
    rfl

/-- `_write_glyph` panics when the glyph is taller than the line. -/
theorem write_glyph_c_taller (compose : Bool) (tb : TextBuffer) (glyph : GlyphBuffer)
    (h : tb.height < glyph.height) :
    tb.write_glyph_c compose glyph = none := by
  unfold TextBuffer.write_glyph_c
  rw [show checked_sub tb.height glyph.height = none from if_neg (by omega)]
  rfl

/-- `_write_glyph` with a glyph that fits the line: blit at `centered_y`,
then advance the cursor by the glyph width. -/
theorem write_glyph_c_eq (compose : Bool) (tb : TextBuffer) (glyph : GlyphBuffer)
    (h : glyph.height ≤ tb.height) :
    tb.write_glyph_c compose glyph =
      (blit compose tb.buf tb.x (tb.y + (tb.height - glyph.height) / 2) glyph).map
        (fun bb => { buf := bb, x := tb.x + glyph.width, y := tb.y, height := tb.height }) := by
  unfold TextBuffer.write_glyph_c blit
  rw [show checked_sub tb.height glyph.height = some (tb.height - glyph.height) from if_pos h]
  cases compose
  · cases hcp : tb.buf.copy_to_from tb.x (tb.y + (tb.height - glyph.height) / 2) glyph <;>
      simp [hcp]
  · cases hcp : tb.buf.copy_to_from_if tb.x (tb.y + (tb.height - glyph.height) / 2) glyph
        TextBuffer.pixel_is_somewhat_transparent <;>
      simp [hcp]

/-- Either blit mode succeeds under the fit precondition and preserves the
destination dimensions. -/
theorem blit_some (compose : Bool) (dst : GlyphBuffer) (x y : Nat) (glyph : GlyphBuffer)
    (hx : x + glyph.width ≤ dst.width) (hy : y + glyph.height ≤ dst.height) :
    ∃ r, blit compose dst x y glyph = some r ∧
      r.width = dst.width ∧ r.vec.length = dst.vec.length := by
  cases compose
  · rw [show blit false dst x y glyph = dst.copy_to_from x y glyph from rfl]
    rw [copy_to_from_eq_some dst glyph x y ⟨hx, hy⟩]
    exact ⟨_, rfl, rfl, (copy_rows_spec dst glyph x y glyph.height hx hy le_rfl).1⟩
  · rw [show blit true dst x y glyph
        = dst.copy_to_from_if x y glyph TextBuffer.pixel_is_somewhat_transparent from rfl]
    exact copy_to_from_if_some dst glyph x y _ ⟨hx, hy⟩

/-- The three channels extracted by `to_u8_rgb` sum to at most `3 * 255`. -/
theorem sum_rgb_le (px : Nat) : sum_rgb px ≤ 765 := by
  unfold sum_rgb to_u8_rgb
  have h1 : px / 2 ^ 16 % 256 < 256 := Nat.mod_lt _ (by norm_num)
  have h2 : px / 2 ^ 8 % 256 < 256 := Nat.mod_lt _ (by norm_num)
  have h3 : px % 256 < 256 := Nat.mod_lt _ (by norm_num)
  simp only
  omega

/-- The wrapping `u16` subtraction agrees with exact subtraction when the
subtrahend is no larger. -/
theorem u16_wrapping_sub_eq (a b : Nat) (hb : b ≤ a) (ha : a < 2 ^ 16) :
    u16_wrapping_sub a b = a - b := by
  unfold u16_wrapping_sub
  have h1 : (0 : ℤ) ≤ (a : ℤ) - b := by omega
  have h2 : (a : ℤ) - b < 2 ^ 16 := by omega
  rw [Int.emod_eq_of_lt h1 h2]
  omega

/-! Claim theorems. -/

/-- C4: the standalone transparency predicate of the color module and the
compositor's variant are extensionally equal: both decide
`brightness(FG) - brightness(px) > 100 * 3` with brightness the integer sum
of the three channels. -/
theorem claim_C4_transparency_variants_agree :
    ∀ px : Nat, pixel_is_transparent px = TextBuffer.pixel_is_somewhat_transparent px :=
  fun _ => rfl

/-- C9: the transparency predicates are true on the Background constant and
false on the Foreground constant. -/
theorem claim_C9_transparency_constants :
    pixel_is_transparent BG = true ∧ pixel_is_transparent FG = false ∧
    TextBuffer.pixel_is_somewhat_transparent BG = true ∧
    TextBuffer.pixel_is_somewhat_transparent FG = false := by
  decide

/-- C10: for every pixel value the three-channel sum is at most the
Foreground sum `765`, so the `u16` subtraction inside both transparency
predicates never wraps (it agrees with exact subtraction) and the predicates
are total on all of `u32`. -/
theorem claim_C10_no_underflow :
    ∀ px : Nat,
      sum_rgb px ≤ FG_RGB_SUM ∧ FG_RGB_SUM = 765 ∧
      u16_wrapping_sub FG_RGB_SUM (sum_rgb px) = FG_RGB_SUM - sum_rgb px ∧
      TextBuffer.sum_rgb px ≤ TextBuffer.FG_RGB_SUM ∧
      u16_wrapping_sub TextBuffer.FG_RGB_SUM (TextBuffer.sum_rgb px)
        = TextBuffer.FG_RGB_SUM - TextBuffer.sum_rgb px := by
  intro px
  have h := sum_rgb_le px
  have hfg : FG_RGB_SUM = 765 := by decide
  have hfg2 : TextBuffer.FG_RGB_SUM = 765 := by decide
  have hs : TextBuffer.sum_rgb px = sum_rgb px := rfl
  refine ⟨by omega, hfg, ?_, by omega, ?_⟩
  · exact u16_wrapping_sub_eq _ _ (by omega) (by omega)
  · exact u16_wrapping_sub_eq _ _ (by omega) (by omega)

/-- C3: the failing input for the `darken` claim.  The source clamps the
fraction to `[0.0, 255.0]`, not `[0.0, 1.0]`, so `darken` with fraction `2.0`
brightens the color `rgb(1, 0, 0)` to `rgb(2, 0, 0)` instead of returning it
unchanged; the `fraction = 0.0` behaviour (all-zero output) does hold. -/
theorem claim_C3_darken_failing_input :
    darken (from_u8_rgb 1 0 0) 2 = from_u8_rgb 2 0 0 ∧
    from_u8_rgb 2 0 0 ≠ from_u8_rgb 1 0 0 ∧
    darken (from_u8_rgb 1 0 0) 0 = 0 := by
  decide

/-- C2 counterexample: on a 2-by-2 buffer the claim says `get(2, 0)` and
`set(2, 0, _)` must fail because `x = 2 ≥ width`, but both succeed (the flat
index wraps into the second row). -/
theorem claim_C2_counterexample :
    (Vec2d.new (0 : Nat) 2 2).width ≤ 2 ∧
    (Vec2d.new (0 : Nat) 2 2).get2d 2 0 = some 0 ∧
    (Vec2d.new (0 : Nat) 2 2).set2d 2 0 7 = some ⟨[0, 0, 7, 0], 2⟩ := by
  decide

/-- C2 (amended): under the storage invariant `len % width = 0`, `get`/`set`
succeed exactly when the flat index `y * width + x` is below `len`; in
particular every in-bounds coordinate pair succeeds and every `y ≥ height`
fails, but an `x ≥ width` can succeed by wrapping into a later row. -/
theorem claim_C2_bounds (α : Type) (b : Vec2d α) (v : α) (x y : Nat)
    (hinv : b.vec.length % b.width = 0) :
    ((b.get2d x y).isSome = true ↔ y * b.width + x < b.vec.length) ∧
    ((b.set2d x y v).isSome = true ↔ y * b.width + x < b.vec.length) ∧
    (x < b.width → y < b.height → (b.get2d x y).isSome = true ∧
      (b.set2d x y v).isSome = true) ∧
    (b.height ≤ y → b.get2d x y = none ∧ b.set2d x y v = none) := by
  have hdvd : b.width ∣ b.vec.length := Nat.dvd_of_mod_eq_zero hinv
  have hlen : b.vec.length / b.width * b.width = b.vec.length := Nat.div_mul_cancel hdvd
  have hget : (b.get2d x y).isSome = true ↔ y * b.width + x < b.vec.length :=
    getElem?_isSome_iff b.vec (y * b.width + x)
  have hset : (b.set2d x y v).isSome = true ↔ y * b.width + x < b.vec.length := by
    unfold Vec2d.set2d Vec2d.index_2d_to_1d
    constructor
    · intro hs
      by_contra hlt
      rw [if_neg hlt] at hs
      simp at hs
    · intro hlt
      rw [if_pos hlt]
      rfl
  refine ⟨hget, hset, ?_, ?_⟩
  · intro hx hy
    unfold Vec2d.height at hy
    exact ⟨hget.mpr (flat_lt hx hy), hset.mpr (flat_lt hx hy)⟩
  · intro hy
    unfold Vec2d.height at hy
    have hge : b.vec.length ≤ y * b.width + x := by
      have := Nat.mul_le_mul_right b.width hy
      omega
    constructor
    · exact List.getElem?_eq_none hge
    · unfold Vec2d.set2d Vec2d.index_2d_to_1d
      rw [if_neg (by omega)]

/-- C2 witness: the amended bounds theorem applied to a concrete 2-by-2
buffer at the in-bounds cell `(1, 1)`. -/
theorem claim_C2_bounds_witness :
    (Vec2d.new (0 : Nat) 2 2).vec.length % (Vec2d.new (0 : Nat) 2 2).width = 0 ∧
    ((((Vec2d.new (0 : Nat) 2 2).get2d 1 1).isSome = true ↔
        1 * (Vec2d.new (0 : Nat) 2 2).width + 1 < (Vec2d.new (0 : Nat) 2 2).vec.length) ∧
      (((Vec2d.new (0 : Nat) 2 2).set2d 1 1 7).isSome = true ↔
        1 * (Vec2d.new (0 : Nat) 2 2).width + 1 < (Vec2d.new (0 : Nat) 2 2).vec.length) ∧
      (1 < (Vec2d.new (0 : Nat) 2 2).width → 1 < (Vec2d.new (0 : Nat) 2 2).height →
        ((Vec2d.new (0 : Nat) 2 2).get2d 1 1).isSome = true ∧
        ((Vec2d.new (0 : Nat) 2 2).set2d 1 1 7).isSome = true) ∧
      ((Vec2d.new (0 : Nat) 2 2).height ≤ 1 →
        (Vec2d.new (0 : Nat) 2 2).get2d 1 1 = none ∧
        (Vec2d.new (0 : Nat) 2 2).set2d 1 1 7 = none)) :=
  ⟨by decide, claim_C2_bounds Nat (Vec2d.new (0 : Nat) 2 2) 7 1 1 (by decide)⟩

/-- C6: within bounds, the transparency-gated copy with an always-true
predicate produces exactly the plain copy, and with an always-false predicate
it leaves the destination unchanged. -/
theorem claim_C6_copy_region_if_extremes (α : Type) (dst src : Vec2d α) (dx dy : Nat)
    (h : dx + src.width ≤ dst.width ∧ dy + src.height ≤ dst.height) :
    dst.copy_to_from_if dx dy src (fun _ => true) = dst.copy_to_from dx dy src ∧
    dst.copy_to_from_if dx dy src (fun _ => false) = some dst :=
  ⟨copy_to_from_if_true dst src dx dy h, copy_to_from_if_false dst src dx dy h⟩

/-- C6 witness: the two extreme predicates on a concrete 2-by-2 source blit
into a 3-by-3 destination at `(1, 1)`. -/
theorem claim_C6_witness :
    (1 + (⟨[1, 2, 3, 4], 2⟩ : Vec2d Nat).width ≤ (Vec2d.new (0 : Nat) 3 3).width ∧
      1 + (⟨[1, 2, 3, 4], 2⟩ : Vec2d Nat).height ≤ (Vec2d.new (0 : Nat) 3 3).height) ∧
    ((Vec2d.new (0 : Nat) 3 3).copy_to_from_if 1 1 ⟨[1, 2, 3, 4], 2⟩ (fun _ => true) =
        (Vec2d.new (0 : Nat) 3 3).copy_to_from 1 1 ⟨[1, 2, 3, 4], 2⟩ ∧
      (Vec2d.new (0 : Nat) 3 3).copy_to_from_if 1 1 ⟨[1, 2, 3, 4], 2⟩ (fun _ => false) =
        some (Vec2d.new (0 : Nat) 3 3)) :=
  ⟨by decide, claim_C6_copy_region_if_extremes Nat (Vec2d.new (0 : Nat) 3 3)
    ⟨[1, 2, 3, 4], 2⟩ 1 1 (by decide)⟩

/-- C7: within bounds, `copy_to_from` overwrites exactly the footprint of the
source (cell `(dx+x, dy+y)` becomes source cell `(x, y)`) and leaves every
destination cell outside the footprint unchanged, preserving the
destination's width and storage size.  (The source buffer is a read-only
argument of the functional model, so it is unaffected by construction.) -/
theorem claim_C7_copy_region_effect (α : Type) (dst src : Vec2d α) (dx dy x y u v : Nat)
    (h : dx + src.width ≤ dst.width ∧ dy + src.height ≤ dst.height)
    (hx : x < src.width) (hy : y < src.height) (hu : u < dst.width)
    (hout : ¬(dx ≤ u ∧ u < dx + src.width ∧ dy ≤ v ∧ v < dy + src.height)) :
    (dst.copy_to_from dx dy src).map Vec2d.width = some dst.width ∧
    (dst.copy_to_from dx dy src).map (fun r => r.vec.length) = some dst.vec.length ∧
    (dst.copy_to_from dx dy src).map (fun r => r.get2d (dx + x) (dy + y)) =
      some (src.get2d x y) ∧
    (dst.copy_to_from dx dy src).map (fun r => r.get2d u v) = some (dst.get2d u v) := by
  have hrows := copy_rows_spec dst src dx dy src.height h.1 h.2 le_rfl
  rw [copy_to_from_eq_some dst src dx dy h]
  refine ⟨rfl, by simp [hrows.1], ?_, ?_⟩
  · simp only [Option.map_some']
    congr 1
    show Vec2d.get2d ⟨copy_rows dst.vec dst.width dx dy src src.height, dst.width⟩
        (dx + x) (dy + y) = src.get2d x y
    unfold Vec2d.get2d Vec2d.index_2d_to_1d
    simp only
    have hidx : (dy + y) * dst.width + (dx + x) = (y + dy) * dst.width + (x + dx) := by
      ring
    rw [hidx, hrows.2]
    rw [blitGet_at dst src dx dy _ x y (by omega)]
    split
    next => rfl
    next hcond =>
      exfalso
      exact hcond (by simp only [decide_eq_true_eq]; exact ⟨hx, hy⟩)
  · simp only [Option.map_some']
    congr 1
    show Vec2d.get2d ⟨copy_rows dst.vec dst.width dx dy src src.height, dst.width⟩ u v
        = dst.get2d u v
    unfold Vec2d.get2d Vec2d.index_2d_to_1d
    simp only
    rw [hrows.2]
    unfold blitGet
    rw [decode_mod hu, decode_div hu]
    split
    next hcond =>
      exfalso
      obtain ⟨h0, h1, h2, h3⟩ := hcond
      simp only [decide_eq_true_eq] at h3
      exact hout ⟨h1, by omega, h2, by omega⟩
    next => rfl

/-- C7 witness: the footprint/frame theorem applied to a concrete 2-by-2
source copied into a 3-by-3 destination at `(1, 1)`, at footprint cell
`(x, y) = (0, 1)` and frame cell `(u, v) = (0, 2)`. -/
theorem claim_C7_witness :
    ((1 + (⟨[1, 2, 3, 4], 2⟩ : Vec2d Nat).width ≤ (Vec2d.new (0 : Nat) 3 3).width ∧
        1 + (⟨[1, 2, 3, 4], 2⟩ : Vec2d Nat).height ≤ (Vec2d.new (0 : Nat) 3 3).height) ∧
      0 < (⟨[1, 2, 3, 4], 2⟩ : Vec2d Nat).width ∧
      1 < (⟨[1, 2, 3, 4], 2⟩ : Vec2d Nat).height ∧
      0 < (Vec2d.new (0 : Nat) 3 3).width ∧
      ¬(1 ≤ 0 ∧ 0 < 1 + (⟨[1, 2, 3, 4], 2⟩ : Vec2d Nat).width ∧ 1 ≤ 2 ∧
          2 < 1 + (⟨[1, 2, 3, 4], 2⟩ : Vec2d Nat).height)) ∧
    (((Vec2d.new (0 : Nat) 3 3).copy_to_from 1 1 ⟨[1, 2, 3, 4], 2⟩).map Vec2d.width =
        some (Vec2d.new (0 : Nat) 3 3).width ∧
      ((Vec2d.new (0 : Nat) 3 3).copy_to_from 1 1 ⟨[1, 2, 3, 4], 2⟩).map
          (fun r => r.vec.length) = some (Vec2d.new (0 : Nat) 3 3).vec.length ∧
      ((Vec2d.new (0 : Nat) 3 3).copy_to_from 1 1 ⟨[1, 2, 3, 4], 2⟩).map
          (fun r => r.get2d (1 + 0) (1 + 1)) =
        some ((⟨[1, 2, 3, 4], 2⟩ : Vec2d Nat).get2d 0 1) ∧
      ((Vec2d.new (0 : Nat) 3 3).copy_to_from 1 1 ⟨[1, 2, 3, 4], 2⟩).map
          (fun r => r.get2d 0 2) = some ((Vec2d.new (0 : Nat) 3 3).get2d 0 2)) :=
  ⟨⟨by decide, by decide, by decide, by decide, by decide⟩,
    claim_C7_copy_region_effect Nat (Vec2d.new (0 : Nat) 3 3) ⟨[1, 2, 3, 4], 2⟩
      1 1 0 1 0 2 (by decide) (by decide) (by decide) (by decide) (by decide)⟩

/-- C5: `write_glyph` fails fatally when the glyph is taller than the line;
otherwise (given the blit fit preconditions) it blits the glyph at
`(cursor.x, centered_y)` with `centered_y = cursor.y +
(line_height - glyph.height) / 2`, succeeds, and advances `cursor.x` by
exactly the glyph width, leaving `cursor.y` and the line height unchanged. -/
theorem claim_C5_write_glyph (compose : Bool) (tb : TextBuffer) (glyph : GlyphBuffer) :
    (tb.height < glyph.height → tb.write_glyph_c compose glyph = none) ∧
    (glyph.height ≤ tb.height →
      tb.x + glyph.width ≤ tb.buf.width →
      tb.y + (tb.height - glyph.height) / 2 + glyph.height ≤ tb.buf.height →
      (blit compose tb.buf tb.x (tb.y + (tb.height - glyph.height) / 2) glyph).isSome
        = true ∧
      tb.write_glyph_c compose glyph =
        (blit compose tb.buf tb.x (tb.y + (tb.height - glyph.height) / 2) glyph).map
          (fun bb =>
            { buf := bb, x := tb.x + glyph.width, y := tb.y, height := tb.height })) := by
  refine ⟨write_glyph_c_taller compose tb glyph, ?_⟩
  intro h1 h2 h3
  obtain ⟨r, hr, _, _⟩ := blit_some compose tb.buf tb.x _ glyph h2 h3
  exact ⟨by rw [hr]; rfl, write_glyph_c_eq compose tb glyph h1⟩

/-- C5 witness: a glyph of height 2 on a line of height 4 (centered one row
down, cursor advanced by the width 2), and a glyph taller than its line. -/
theorem claim_C5_witness :
    TextBuffer.write_glyph_c false ⟨Vec2d.new 0 2 4, 0, 0, 1⟩ ⟨[7, 7], 1⟩ = none ∧
    ((blit false (Vec2d.new 0 2 4) 0 (0 + (4 - 2) / 2) ⟨[7, 7, 8, 8], 2⟩).isSome
        = true ∧
      TextBuffer.write_glyph_c false ⟨Vec2d.new 0 2 4, 0, 0, 4⟩ ⟨[7, 7, 8, 8], 2⟩ =
        (blit false (Vec2d.new 0 2 4) 0 (0 + (4 - 2) / 2) ⟨[7, 7, 8, 8], 2⟩).map
          (fun bb => { buf := bb, x := 0 + 2, y := 0, height := 4 })) :=
  ⟨(claim_C5_write_glyph false ⟨Vec2d.new 0 2 4, 0, 0, 1⟩ ⟨[7, 7], 1⟩).1 (by decide),
    (claim_C5_write_glyph false ⟨Vec2d.new 0 2 4, 0, 0, 4⟩ ⟨[7, 7, 8, 8], 2⟩).2
      (by decide) (by decide) (by decide)⟩

/-- C4 witness: the two predicate variants agree at the concrete pixel
`0x0000FF`. -/
theorem claim_C4_witness :
    pixel_is_transparent 255 = TextBuffer.pixel_is_somewhat_transparent 255 :=
  claim_C4_transparency_variants_agree 255

/-- C10 witness: the no-underflow facts at the concrete pixel `0xFFFFFF`
(the Foreground value itself, the extreme case of the subtraction). -/
theorem claim_C10_witness :
    sum_rgb 16777215 ≤ FG_RGB_SUM ∧ FG_RGB_SUM = 765 ∧
    u16_wrapping_sub FG_RGB_SUM (sum_rgb 16777215) = FG_RGB_SUM - sum_rgb 16777215 ∧
    TextBuffer.sum_rgb 16777215 ≤ TextBuffer.FG_RGB_SUM ∧
    u16_wrapping_sub TextBuffer.FG_RGB_SUM (TextBuffer.sum_rgb 16777215)
      = TextBuffer.FG_RGB_SUM - TextBuffer.sum_rgb 16777215 :=
  claim_C10_no_underflow 16777215

/-- C8: the cache eagerly renders all 25 single-digit glyphs, digit `i` from
exactly the `i`-th byte of the fixed 26-byte table
(digits, then `)!@#$%^&*(`, then the bracket and pipe bytes), and requesting
a single-digit glyph out of range fails fatally while an in-range request
succeeds. -/
theorem claim_C8_digit_table (scale : ℚ) (dni_font ascii_font : RenderFn) (i m : Nat)
    (hi : i < 25) (hm : 25 ≤ m) :
    n_to_dni i = some (([48, 49, 50, 51, 52, 53, 54, 55, 56, 57,
        41, 33, 64, 35, 36, 37, 94, 38, 42, 40,
        91, 93, 92, 123, 125, 124] : List Nat).getD i 0) ∧
    (Cache.generate scale dni_font ascii_font).dni_digits ⟨i, hi⟩ =
      dni_font (([48, 49, 50, 51, 52, 53, 54, 55, 56, 57,
        41, 33, 64, 35, 36, 37, 94, 38, 42, 40,
        91, 93, 92, 123, 125, 124] : List Nat).getD i 0) scale ∧
    (Glyphs.with_starting_scale scale dni_font ascii_font).get_dni_number_one_digit m
      = none ∧
    ((Glyphs.with_starting_scale scale dni_font
        ascii_font).get_dni_number_one_digit i).isSome = true := by
  have htab : ∀ j, j < 25 → n_to_dni j =
      some (([48, 49, 50, 51, 52, 53, 54, 55, 56, 57,
        41, 33, 64, 35, 36, 37, 94, 38, 42, 40,
        91, 93, 92, 123, 125, 124] : List Nat).getD j 0) := by
    decide
  refine ⟨htab i hi, ?_, ?_, ?_⟩
  · show dni_font ((n_to_dni i).getD 0) scale = _
    rw [htab i hi]
    rfl
  · unfold Glyphs.with_starting_scale Glyphs.get_dni_number_one_digit
    rw [dif_neg (by omega)]
  · unfold Glyphs.with_starting_scale Glyphs.get_dni_number_one_digit
    rw [dif_pos hi]
    rfl

/-- C8 witness: the table theorem at digit 10 (which must be the byte of
`)`, 41) and the out-of-range index 25. -/
theorem claim_C8_witness :
    10 < 25 ∧ 25 ≤ 25 ∧
    (n_to_dni 10 = some (([48, 49, 50, 51, 52, 53, 54, 55, 56, 57,
        41, 33, 64, 35, 36, 37, 94, 38, 42, 40,
        91, 93, 92, 123, 125, 124] : List Nat).getD 10 0) ∧
      (Cache.generate 0 (fun _ _ => ⟨[], 0⟩) (fun _ _ => ⟨[], 0⟩)).dni_digits
          ⟨10, by decide⟩ =
        (fun _ _ => (⟨[], 0⟩ : GlyphBuffer)) (([48, 49, 50, 51, 52, 53, 54, 55, 56, 57,
          41, 33, 64, 35, 36, 37, 94, 38, 42, 40,
          91, 93, 92, 123, 125, 124] : List Nat).getD 10 0) 0 ∧
      (Glyphs.with_starting_scale 0 (fun _ _ => ⟨[], 0⟩)
          (fun _ _ => ⟨[], 0⟩)).get_dni_number_one_digit 25 = none ∧
      ((Glyphs.with_starting_scale 0 (fun _ _ => ⟨[], 0⟩)
          (fun _ _ => ⟨[], 0⟩)).get_dni_number_one_digit 10).isSome = true) :=
  ⟨by decide, by decide,
    claim_C8_digit_table 0 (fun _ _ => ⟨[], 0⟩) (fun _ _ => ⟨[], 0⟩) 10 25
      (by decide) (by decide)⟩

/-- Dimensions of a freshly allocated buffer. -/
theorem new_height (value : α) (w ht : Nat) :
    Vec2d.height (Vec2d.new value w ht) = w * ht / w := by
  unfold Vec2d.new Vec2d.height
  simp

/-- Output dimensions of `compose_from_bufs`: under equal glyph heights and
an overlap no wider than either glyph, the composition succeeds with height
the shared glyph height and width the sum of the glyph widths minus the
overlap. -/
theorem compose_from_bufs_spec (scale : ℚ) (g1 g2 : GlyphBuffer)
    (hh : g1.height = g2.height)
    (ho1 : digit_overlap scale ≤ g1.width) (ho2 : digit_overlap scale ≤ g2.width) :
    (compose_from_bufs scale g1 g2).map Vec2d.height = some g1.height ∧
    (compose_from_bufs scale g1 g2).map Vec2d.width =
      some (g2.width + g1.width - digit_overlap scale) := by
  have hzero : g1.width + g2.width - digit_overlap scale = 0 → g1.height = 0 := by
    intro hw
    have hg1w : g1.width = 0 := by omega
    show g1.vec.length / g1.width = 0
    rw [hg1w]
    simp
  have hok : g1.height ≤
      (g1.width + g2.width - digit_overlap scale) * g1.height /
        (g1.width + g2.width - digit_overlap scale) := by
    by_cases hw : g1.width + g2.width - digit_overlap scale = 0
    · rw [hzero hw]
      exact Nat.zero_le _
    · rw [Nat.mul_div_cancel_left _ (Nat.pos_of_ne_zero hw)]
  have hnewlen : (Vec2d.new BG (g1.width + g2.width - digit_overlap scale)
      g1.height).vec.length = (g1.width + g2.width - digit_overlap scale) * g1.height := by
    unfold Vec2d.new
    simp
  have hx1 : 0 + g2.width ≤
      (Vec2d.new BG (g1.width + g2.width - digit_overlap scale) g1.height).width := by
    show 0 + g2.width ≤ g1.width + g2.width - digit_overlap scale
    omega
  have hy1 : 0 + g2.height ≤
      (Vec2d.new BG (g1.width + g2.width - digit_overlap scale) g1.height).height := by
    rw [new_height, ← hh]
    omega
  obtain ⟨b1, hb1, hb1w, hb1len⟩ :=
    blit_some true (Vec2d.new BG (g1.width + g2.width - digit_overlap scale) g1.height)
      0 0 g2 hx1 hy1
  have hb1w2 : b1.width = g1.width + g2.width - digit_overlap scale := hb1w
  have hb1len2 : b1.vec.length = (g1.width + g2.width - digit_overlap scale) * g1.height := by
    rw [hb1len, hnewlen]
  have hb1h : b1.height =
      (g1.width + g2.width - digit_overlap scale) * g1.height /
        (g1.width + g2.width - digit_overlap scale) := by
    show b1.vec.length / b1.width = _
    rw [hb1len2, hb1w2]
  have hx2 : (g2.width - digit_overlap scale) + g1.width ≤ b1.width := by
    rw [hb1w2]
    omega
  have hy2 : 0 + g1.height ≤ b1.height := by
    rw [hb1h]
    omega
  obtain ⟨b2, hb2, hb2w, hb2len⟩ :=
    blit_some true b1 (g2.width - digit_overlap scale) 0 g1 hx2 hy2
  have hw1 : TextBuffer.write_glyph_composing
      ⟨Vec2d.new BG (g1.width + g2.width - digit_overlap scale) g1.height, 0, 0, g1.height⟩
      g2 = some ⟨b1, g2.width, 0, g1.height⟩ := by
    unfold TextBuffer.write_glyph_composing
    rw [write_glyph_c_eq true _ g2 (le_of_eq hh.symm)]
    simp [hh.symm, hb1]
  have hw2 : TextBuffer.write_glyph_composing
      ⟨b1, g2.width - digit_overlap scale, 0, g1.height⟩ g1 =
      some ⟨b2, g2.width - digit_overlap scale + g1.width, 0, g1.height⟩ := by
    unfold TextBuffer.write_glyph_composing
    rw [write_glyph_c_eq true _ g1 le_rfl]
    simp [hb2]
  have hsub : checked_sub (g1.width + g2.width) (digit_overlap scale) =
      some (g1.width + g2.width - digit_overlap scale) := if_pos (by omega)
  have hx3 : checked_sub g2.width (digit_overlap scale) =
      some (g2.width - digit_overlap scale) := if_pos ho2
  have hrun : compose_from_bufs scale g1 g2 = some b2 := by
    simp only [compose_from_bufs, hsub, Option.some_bind]
    simp [hh.symm, hw1, hx3, hw2]
  have hb2w2 : b2.width = g1.width + g2.width - digit_overlap scale := by
    rw [hb2w, hb1w2]
  have hb2h : b2.height = g1.height := by
    show b2.vec.length / b2.width = g1.height
    rw [hb2len, hb1len2, hb2w2]
    by_cases hw : g1.width + g2.width - digit_overlap scale = 0
    · rw [hw, hzero hw]
    · rw [Nat.mul_div_cancel_left _ (Nat.pos_of_ne_zero hw)]
  rw [hrun]
  simp only [Option.map_some']
  exact ⟨congrArg some hb2h, congrArg some (by omega)⟩

/-- C1 counterexample: with single-digit glyphs of width 1 and height 2 (all
heights equal, as the claim assumes) and scale 40 (overlap
`round(40 * 0.25) = 10`), `compose_two_digit(26)` does not return a buffer at
all: the width computation `1 + 1 - 10` underflows (a panic), so the claimed
output dimensions fail. -/
theorem claim_C1_counterexample :
    ((fun _ : Fin 25 => (⟨[BG, BG], 1⟩ : GlyphBuffer)) ⟨26 % 25, by decide⟩).height =
      ((fun _ : Fin 25 => (⟨[BG, BG], 1⟩ : GlyphBuffer)) ⟨26 / 25, by decide⟩).height ∧
    26 < 60 ∧
    Cache.compose_numeral 40 (fun _ => ⟨[BG, BG], 1⟩) 26 = none := by
  decide

set_option maxHeartbeats 2000000 in
/-- C1 (amended): for `n` in `0..60`, when the two cached digit glyphs
`digit1 = n % 25` and `digit2 = n / 25` have equal heights and the overlap
`round(scale * 0.25)` is at most each glyph's width, `compose_two_digit(n)`
returns a buffer of height the single-digit glyph height and width
`width(digit2) + width(digit1) - overlap`. -/
theorem claim_C1_two_digit_composition (scale : ℚ) (dni_digits : Fin 25 → GlyphBuffer)
    (n : Nat) (hn : n < 60)
    (hh : (dni_digits ⟨n % 25, Nat.mod_lt n (by decide)⟩).height
        = (dni_digits ⟨n / 25, by omega⟩).height)
    (ho1 : digit_overlap scale ≤ (dni_digits ⟨n % 25, Nat.mod_lt n (by decide)⟩).width)
    (ho2 : digit_overlap scale ≤ (dni_digits ⟨n / 25, by omega⟩).width) :
    (Cache.compose_numeral scale dni_digits n).map Vec2d.height =
      some (dni_digits ⟨n % 25, Nat.mod_lt n (by decide)⟩).height ∧
    (Cache.compose_numeral scale dni_digits n).map Vec2d.width =
      some ((dni_digits ⟨n / 25, by omega⟩).width
        + (dni_digits ⟨n % 25, Nat.mod_lt n (by decide)⟩).width - digit_overlap scale) := by
  have h2d : (n - n % 25) / 25 < 25 := by omega
  have heq : Cache.compose_numeral scale dni_digits n =
      compose_from_bufs scale (dni_digits ⟨n % 25, Nat.mod_lt n (by decide)⟩)
        (dni_digits ⟨n / 25, by omega⟩) := by
    show (if h2 : (n - n % 25) / 25 < 25 then
        compose_from_bufs scale (dni_digits ⟨n % 25, Nat.mod_lt n (by decide)⟩)
          (dni_digits ⟨(n - n % 25) / 25, h2⟩)
      else none) = _
    rw [dif_pos h2d]
    rw [show (⟨(n - n % 25) / 25, h2d⟩ : Fin 25) = ⟨n / 25, by omega⟩ from
      Fin.ext (show (n - n % 25) / 25 = n / 25 by omega)]
  rw [heq]
  exact compose_from_bufs_spec scale _ _ hh ho1 ho2

/-- C1 witness: scale 4 (overlap 1) and constant digit glyphs of width 2 and
height 1; composing `n = 26` gives a 3-wide, 1-tall buffer. -/
theorem claim_C1_witness :
    ((⟨[FG, FG], 2⟩ : GlyphBuffer).height = (⟨[FG, FG], 2⟩ : GlyphBuffer).height ∧
      26 < 60 ∧
      digit_overlap 4 ≤ (⟨[FG, FG], 2⟩ : GlyphBuffer).width) ∧
    ((Cache.compose_numeral 4 (fun _ => ⟨[FG, FG], 2⟩) 26).map Vec2d.height =
        some (⟨[FG, FG], 2⟩ : GlyphBuffer).height ∧
      (Cache.compose_numeral 4 (fun _ => ⟨[FG, FG], 2⟩) 26).map Vec2d.width =
        some ((⟨[FG, FG], 2⟩ : GlyphBuffer).width + (⟨[FG, FG], 2⟩ : GlyphBuffer).width
          - digit_overlap 4)) :=
  ⟨⟨rfl, by decide, by decide⟩,
    claim_C1_two_digit_composition 4 (fun _ => ⟨[FG, FG], 2⟩) 26 (by decide)
      (by decide) (by decide) (by decide)⟩
